import Mathlib

/-!
Verification model of the guess-drawing-game server (socket.io variant,
the feature-complete transport in the repository).  JavaScript `Map`s are
modelled as insertion-ordered association lists (JS `Map` preserves
insertion order, which the code relies on for `users[0]`, the room
creator).  JS strings are modelled as lists of characters.  Fallible code
paths (property access on `undefined`, a thrown `TypeError`) are modelled
by `Option`: a `none` result is a crash of the handler.
-/

set_option autoImplicit false

namespace GuessGame

/-- JS strings, modelled as character lists. -/
abbrev JsString := List Char

abbrev UserId := Nat
abbrev RoomId := Nat

/-! ### Insertion-ordered maps (JS `Map`) -/

/-- `Map.get`: first entry with the given key. -/
def alGet {V : Type} : List (Nat × V) → Nat → Option V
  | [], _ => none
  | (k, v) :: rest, k2 => if k = k2 then some v else alGet rest k2

/-- `Map.set`: update in place if present (keeping position), else append. -/
def alSet {V : Type} : List (Nat × V) → Nat → V → List (Nat × V)
  | [], k2, v2 => [(k2, v2)]
  | (k, v) :: rest, k2, v2 =>
    if k = k2 then (k, v2) :: rest else (k, v) :: alSet rest k2 v2

/-- `Map.delete`: remove the entry with the given key. -/
def alDelete {V : Type} : List (Nat × V) → Nat → List (Nat × V)
  | [], _ => []
  | (k, v) :: rest, k2 =>
    if k = k2 then alDelete rest k2 else (k, v) :: alDelete rest k2

/-- `Map.has`. -/
def alHas {V : Type} (m : List (Nat × V)) (k : Nat) : Bool :=
  (alGet m k).isSome

/-- `Array.from(map.values())`: values in insertion order. -/
def alValues {V : Type} (m : List (Nat × V)) : List V :=
  m.map (·.2)

/-! ### Data model -/

/-- A participant record as stored in `roomUsers` (the JS object has no
`points` field until the first correct guess; `user.points || 0` makes the
absent field behave as `0`, so it is modelled as a `Nat` starting at 0). -/
structure User where
  id : UserId
  userName : JsString
  points : Nat
  joinedAt : Nat
deriving Repr, DecidableEq

/-- The per-room game state record created by `initializeGame`. -/
structure Game where
  currentDrawer : Option UserId
  currentWord : Option JsString
  gameStarted : Bool
  turnStartTime : Option Nat
  timerEndTime : Option Nat
deriving Repr, DecidableEq

/-- The record created by `initializeGame` when the room has none. -/
def freshGame : Game :=
  { currentDrawer := none, currentWord := none, gameStarted := false
    turnStartTime := none, timerEndTime := none }

/-- The module-level maps of the socket.io variant.  `roomTimers` stores,
for each room with a live `setInterval`, the captured `durationSeconds`
(the interval handle itself is opaque). -/
structure ServerState where
  roomUsers : List (RoomId × List (UserId × User))
  roomGames : List (RoomId × Game)
  roomCorrectGuessers : List (RoomId × List UserId)
  roomTimers : List (RoomId × Nat)
  roomTurnOrder : List (RoomId × List UserId)
  roomTurnIndex : List (RoomId × Nat)
deriving Repr, DecidableEq

/-- The empty server state at process start. -/
def initState : ServerState :=
  { roomUsers := [], roomGames := [], roomCorrectGuessers := []
    roomTimers := [], roomTurnOrder := [], roomTurnIndex := [] }

/-- Everything the server emits to clients, in emission order. -/
inductive Emitted where
  | usersUpdate (room : RoomId) (users : List User)
  | userJoined (room : RoomId) (u : User)
  | userLeft (room : RoomId) (id : UserId)
  | turnStart (room : RoomId) (drawer : User) (turnStartTime : Nat)
  | wordSelected (room : RoomId) (word : JsString) (drawerId : UserId)
  | timerUpdate (room : RoomId) (remaining : Nat) (total : Nat)
  | guessCorrect (room : RoomId) (userName : JsString) (points : Nat)
      (position : Nat) (totalCorrect : Nat)
  | chatMessage (room : RoomId) (userName : JsString) (message : JsString)
      (isCorrectGuess : Bool) (points : Option Nat) (position : Option Nat)
deriving Repr, DecidableEq

/-! ### String normalization (line 276: guess comparison) -/

/-- JS `String.prototype.toLowerCase` (ASCII-faithful). -/
def jsToLower (s : JsString) : JsString := s.map Char.toLower

/-- JS `String.prototype.trim`: strip whitespace from both ends. -/
def jsTrim (s : JsString) : JsString :=
  ((s.dropWhile Char.isWhitespace).reverse.dropWhile Char.isWhitespace).reverse

/-- Line 276: `message.toLowerCase().trim() === game.currentWord.toLowerCase()`.
Note that only the guess is trimmed; the stored word is only lowercased. -/
def guessMatches (message word : JsString) : Bool :=
  jsToLower (jsTrim message) == jsToLower word

/-- Modelled from the spec: the spec claims the sole correctness criterion
is equality after "lowercasing and trimming surrounding whitespace applied
to both strings".  This is the spec's normalization, to be compared with
`guessMatches` above (which never trims the stored word). -/
def specNormalize (s : JsString) : JsString :=
  jsToLower (jsTrim s)

/-- Points by guess position (lines 281-287). -/
def pointsForPosition (pos : Nat) : Nat :=
  if pos = 1 then 100
  else if pos = 2 then 75
  else if pos = 3 then 50
  else if pos ≤ 5 then 25
  else 10

/-- `Math.max(0, Math.ceil((endTime - now) / 1000))` over JS numbers
(here exact integers). -/
def jsRemaining (endTime : Int) (now : Int) : Nat :=
  (max 0 (-(Int.fdiv (-(endTime - now)) 1000))).toNat

/-! ### Core game functions (socket.io variant of the source) -/

/-- `initializeGame(room)` (lines 50-61): create the default game record
if absent, return the room's record. -/
def initializeGame (s : ServerState) (room : RoomId) : ServerState × Game :=
  match alGet s.roomGames room with
  | some g => (s, g)
  | none => ({ s with roomGames := alSet s.roomGames room freshGame }, freshGame)

/-- `clearTimer(room)` (lines 64-73): drop the interval handle and null
the stored expiry. -/
def clearTimer (s : ServerState) (room : RoomId) : ServerState :=
  let s1 := { s with roomTimers := alDelete s.roomTimers room }
  match alGet s1.roomGames room with
  | some g =>
    { s1 with roomGames := alSet s1.roomGames room { g with timerEndTime := none } }
  | none => s1

/-- `startTimer(room, durationSeconds)` (lines 76-108): cancel any
existing timer, stamp the absolute expiry, emit the initial
`timer:update`, register the interval. -/
def startTimer (s : ServerState) (room : RoomId) (durationSeconds : Nat)
    (now : Nat) : ServerState × List Emitted :=
  let s1 := clearTimer s room
  match alGet s1.roomGames room with
  | none => (s1, [])
  | some g =>
    let g2 := { g with timerEndTime := some (now + durationSeconds * 1000) }
    let s2 := { s1 with roomGames := alSet s1.roomGames room g2 }
    let s3 := { s2 with roomTimers := alSet s2.roomTimers room durationSeconds }
    (s3, [.timerUpdate room durationSeconds durationSeconds])

/-- The `while (!nextDrawer && attempts < maxAttempts)` loop of
`startNewTurn` (lines 130-143), with `fuel = maxAttempts - attempts`.
Out-of-range `turnOrder[currentIndex]` yields `undefined` in JS and the
roster `find` fails, so it behaves as an absent user.  Returns the found
drawer together with the next turn index, or `none` when attempts are
exhausted. -/
def findDrawerLoop (users : List User) (turnOrder : List UserId) :
    Nat → Nat → Option (User × Nat)
  | _, 0 => none
  | idx, fuel + 1 =>
    match turnOrder.get? idx with
    | none => findDrawerLoop users turnOrder ((idx + 1) % turnOrder.length) fuel
    | some uid =>
      match users.find? (fun u => u.id == uid) with
      | some u => some (u, (idx + 1) % turnOrder.length)
      | none => findDrawerLoop users turnOrder ((idx + 1) % turnOrder.length) fuel

/-- The tail of `startNewTurn` (lines 139-168) once the next drawer and
the next turn index are decided: store the index, cancel any existing
timer, update the game record, reset the correct guessers and emit
`turn:start`. -/
def finishTurn (s1 : ServerState) (room : RoomId) (now : Nat)
    (nextDrawer : User) (newIndex : Nat) : ServerState × List Emitted :=
  let s2 := { s1 with roomTurnIndex := alSet s1.roomTurnIndex room newIndex }
  let s3 := clearTimer s2 room
  let (s4, g) := initializeGame s3 room
  let g2 := { g with currentDrawer := some nextDrawer.id, currentWord := none
                     gameStarted := true, turnStartTime := some now }
  let s5 := { s4 with
    roomGames := alSet s4.roomGames room g2
    roomCorrectGuessers := alSet s4.roomCorrectGuessers room [] }
  (s5, [.turnStart room nextDrawer now])

/-- `startNewTurn(room)` (lines 110-171).  Crashes (`none`) when the
room's roster map is absent (`roomUsers.get(room).values()` on
`undefined`).  The skip loop is bounded by `users.length` attempts; when
it finds no still-present drawer the fallback takes `users[0]` and sets
the cursor to `1 % users.length`. -/
def startNewTurn (s : ServerState) (room : RoomId) (now : Nat) :
    Option (ServerState × List Emitted) :=
  match alGet s.roomUsers room with
  | none => none
  | some roster =>
    match alValues roster with
    | [] => some (s, [])
    | u0 :: us =>
      let users := u0 :: us
      let s1 :=
        if alHas s.roomTurnOrder room then s
        else { s with
          roomTurnOrder := alSet s.roomTurnOrder room (users.map (·.id))
          roomTurnIndex := alSet s.roomTurnIndex room 0 }
      let currentIndex := (alGet s1.roomTurnIndex room).getD 0
      let turnOrder := (alGet s1.roomTurnOrder room).getD []
      match findDrawerLoop users turnOrder currentIndex users.length with
      | some (u, i) => some (finishTurn s1 room now u i)
      | none => some (finishTurn s1 room now u0 (1 % users.length))

/-! ### Socket event handlers -/

/-- The `connection` handler body (lines 173-199): register the room and
the user, append to the turn order when the room already has one and was
non-empty before this join. -/
def handleJoin (s : ServerState) (room : RoomId) (sid : UserId)
    (userName : JsString) (now : Nat) : ServerState × List Emitted :=
  let s1 :=
    if alHas s.roomUsers room then s
    else { s with roomUsers := alSet s.roomUsers room [] }
  let roster := (alGet s1.roomUsers room).getD []
  let wasEmpty := roster.isEmpty
  let u : User := { id := sid, userName := userName, points := 0, joinedAt := now }
  let roster2 := alSet roster sid u
  let s2 := { s1 with roomUsers := alSet s1.roomUsers room roster2 }
  let s3 :=
    if alHas s2.roomTurnOrder room && !wasEmpty then
      let appended := (alGet s2.roomTurnOrder room).getD [] ++ [sid]
      { s2 with roomTurnOrder := alSet s2.roomTurnOrder room appended }
    else s2
  (s3, [.usersUpdate room (alValues roster2), .userJoined room u])

/-- The `word:select` handler (lines 222-240): only the current drawer
may select; set the word, emit `word:selected`, start the 60-second
timer. -/
def handleWordSelect (s : ServerState) (room : RoomId) (sid : UserId)
    (word : JsString) (now : Nat) : ServerState × List Emitted :=
  match alGet s.roomGames room with
  | none => (s, [])
  | some g =>
    if g.currentDrawer ≠ some sid then (s, [])
    else
      let s1 := { s with roomGames := alSet s.roomGames room { g with currentWord := some word } }
      let (s2, ems) := startTimer s1 room 60 now
      (s2, .wordSelected room word sid :: ems)

/-- The `game:start` handler (lines 243-259).  Note `initializeGame` runs
before any authorization check, so a missing game record is created even
when the caller is then rejected.  Crashes when the roster map is absent. -/
def handleGameStart (s : ServerState) (room : RoomId) (sid : UserId)
    (now : Nat) : Option (ServerState × List Emitted) :=
  let (s1, g) := initializeGame s room
  if g.gameStarted then some (s1, [])
  else
    match alGet s1.roomUsers room with
    | none => none
    | some roster =>
      let isRoomCreator : Bool := match alValues roster with
        | [] => false
        | u0 :: _ => u0.id == sid
      if isRoomCreator then startNewTurn s1 room now else some (s1, [])

/-- The celebratory chat line `🎉 Correct! +${points} points`. -/
def correctChatLine (points : Nat) : JsString :=
  ['🎉', ' ', 'C', 'o', 'r', 'r', 'e', 'c', 't', '!', ' ', '+'] ++
    Nat.toDigits 10 points ++ [' ', 'p', 'o', 'i', 'n', 't', 's']

/-- `user.points = (user.points || 0) + points` applied through
`roomUsers.get(room).get(socket.id)`; absent user means no update
(`if (user)`). -/
def updatePoints : List (UserId × User) → UserId → Nat → List (UserId × User)
  | [], _, _ => []
  | (k, u) :: rest, sid, pts =>
    if k = sid then (k, { u with points := u.points + pts }) :: updatePoints rest sid pts
    else (k, u) :: updatePoints rest sid pts

/-- The three broadcasts of the correct-guess branch (lines 296-315), for
a guesser at position `pos` and the resulting roster `roster2`. -/
def correctGuessEmits (room : RoomId) (name : JsString)
    (roster2 : List (UserId × User)) (pos : Nat) : List Emitted :=
  [.usersUpdate room (alValues roster2),
   .guessCorrect room name (pointsForPosition pos) pos pos,
   .chatMessage room name (correctChatLine (pointsForPosition pos)) true
     (some (pointsForPosition pos)) (some pos)]

/-- The `chat:message` handler (lines 262-330).  `userName` is the value
captured in `userInfo` at connection time.  In JS an empty string is
falsy, so an empty `currentWord` skips the guess branch.  The correct
branch dereferences `roomUsers.get(room)`, which crashes when the roster
map is absent. -/
def handleChatMessage (s : ServerState) (room : RoomId) (sid : UserId)
    (userName : JsString) (message : JsString) (_now : Nat) :
    Option (ServerState × List Emitted) :=
  let regular : List Emitted := [.chatMessage room userName message false none none]
  match alGet s.roomGames room with
  | none => some (s, regular)
  | some g =>
    match g.currentWord with
    | none => some (s, regular)
    | some word =>
      if word.isEmpty then some (s, regular)
      else if g.currentDrawer = some sid then some (s, regular)
      else
        let s1 :=
          if alHas s.roomCorrectGuessers room then s
          else { s with roomCorrectGuessers := alSet s.roomCorrectGuessers room [] }
        let correctGuessers := (alGet s1.roomCorrectGuessers room).getD []
        if sid ∈ correctGuessers then some (s1, regular)
        else if guessMatches message word then
          let correctGuessers2 := correctGuessers ++ [sid]
          let guessPosition := correctGuessers2.length
          let points := pointsForPosition guessPosition
          let s2 := { s1 with
            roomCorrectGuessers := alSet s1.roomCorrectGuessers room correctGuessers2 }
          match alGet s2.roomUsers room with
          | none => none
          | some roster =>
            let roster2 := updatePoints roster sid points
            let s3 := { s2 with roomUsers := alSet s2.roomUsers room roster2 }
            some (s3,
              [.usersUpdate room (alValues roster2),
               .guessCorrect room userName points guessPosition correctGuessers2.length,
               .chatMessage room userName (correctChatLine points) true (some points)
                 (some guessPosition)])
        else some (s1, regular)

/-- The `disconnect` handler (lines 334-351): remove the user, delete the
roster map when it becomes empty — and nothing else: no timer
cancellation and no purge of game state, turn order or correct-guesser
set. -/
def handleDisconnect (s : ServerState) (room : RoomId) (sid : UserId) :
    ServerState × List Emitted :=
  match alGet s.roomUsers room with
  | none => (s, [])
  | some roster =>
    let roster2 := alDelete roster sid
    let s1 :=
      if roster2.isEmpty then { s with roomUsers := alDelete s.roomUsers room }
      else { s with roomUsers := alSet s.roomUsers room roster2 }
    let usersNow := (alGet s1.roomUsers room).getD []
    (s1, [.userLeft room sid, .usersUpdate room (alValues usersNow)])

/-- One firing of the interval registered by `startTimer` (lines 91-105),
at wall-clock time `now`.  Fires only while the room has a live interval.
The closure reads `game.timerEndTime` of the captured game object, which
in this variant is always the room's current record (records are never
replaced or deleted); `null` coerces to `0` in JS arithmetic.  On expiry
it clears the timer and calls `startNewTurn`, which crashes when the
room's roster map has been deleted. -/
def handleTick (s : ServerState) (room : RoomId) (now : Nat) :
    Option (ServerState × List Emitted) :=
  match alGet s.roomTimers room with
  | none => some (s, [])
  | some durationSeconds =>
    match alGet s.roomGames room with
    | none => none
    | some g =>
      let endTime : Int := match g.timerEndTime with
        | some e => (e : Int)
        | none => 0
      let remaining := jsRemaining endTime (now : Int)
      let em := Emitted.timerUpdate room remaining durationSeconds
      if remaining = 0 then
        let s1 := clearTimer s room
        match startNewTurn s1 room now with
        | none => none
        | some (s2, ems) => some (s2, em :: ems)
      else some (s, [em])

/-! ### Events and traces -/

/-- Inbound events (plus autonomous timer ticks), each carrying the
wall-clock time where the handler reads `Date.now()`. -/
inductive Event where
  | join (room : RoomId) (sid : UserId) (userName : JsString) (now : Nat)
  | wordSelect (room : RoomId) (sid : UserId) (word : JsString) (now : Nat)
  | gameStart (room : RoomId) (sid : UserId) (now : Nat)
  | chatMessage (room : RoomId) (sid : UserId) (userName : JsString)
      (message : JsString) (now : Nat)
  | disconnect (room : RoomId) (sid : UserId)
  | tick (room : RoomId) (now : Nat)
deriving Repr, DecidableEq

/-- Dispatch one event to its handler. -/
def step (s : ServerState) : Event → Option (ServerState × List Emitted)
  | .join room sid name now => some (handleJoin s room sid name now)
  | .wordSelect room sid word now => some (handleWordSelect s room sid word now)
  | .gameStart room sid now => handleGameStart s room sid now
  | .chatMessage room sid name msg now => handleChatMessage s room sid name msg now
  | .disconnect room sid => some (handleDisconnect s room sid)
  | .tick room now => handleTick s room now

/-- Run a sequence of events, collecting all emissions; `none` as soon as
any handler crashes. -/
def runTrace (s : ServerState) : List Event → Option (ServerState × List Emitted)
  | [] => some (s, [])
  | e :: rest =>
    match step s e with
    | none => none
    | some (s1, ems) =>
      match runTrace s1 rest with
      | none => none
      | some (s2, ems2) => some (s2, ems ++ ems2)

/-- The `turn:start` emissions of a log, as `(room, drawer id, time)`. -/
def turnStarts (ems : List Emitted) : List (RoomId × UserId × Nat) :=
  ems.filterMap (fun e => match e with
    | .turnStart room u t => some (room, u.id, t)
    | _ => none)

/-- The `guess:correct` emissions of a log, as `(room, points, position)`. -/
def guessCorrects (ems : List Emitted) : List (RoomId × Nat × Nat) :=
  ems.filterMap (fun e => match e with
    | .guessCorrect room _ p pos _ => some (room, p, pos)
    | _ => none)

/-- The `timer:update` emissions of a log, as `(room, remaining, total)`. -/
def timerUpdates (ems : List Emitted) : List (RoomId × Nat × Nat) :=
  ems.filterMap (fun e => match e with
    | .timerUpdate room rem tot => some (room, rem, tot)
    | _ => none)

/-- The current correct-guesser set of a room (`[]` when absent). -/
def cgOf (s : ServerState) (r : RoomId) : List UserId :=
  (alGet s.roomCorrectGuessers r).getD []

/-- The accumulated points of a participant, when present. -/
def userPoints (s : ServerState) (r : RoomId) (sid : UserId) : Option Nat :=
  (alGet ((alGet s.roomUsers r).getD []) sid).map (·.points)

/-- The game record resulting from a turn start with drawer `uid` at time
`now`. -/
def turnGame (uid : UserId) (now : Nat) : Game :=
  { currentDrawer := some uid, currentWord := none, gameStarted := true
    turnStartTime := some now, timerEndTime := none }

/-! ### Concrete traces and states used as evidence

User ids: 1 = A, 2 = B, 3 = X, 4 = C, 5 = D; all activity in room 0. -/

/-- The stored word `"cat "` (note the trailing space kept by the code). -/
def wordCatSpace : JsString := ['c', 'a', 't', ' ']

/-- The guess `"cat"`. -/
def guessCat : JsString := ['c', 'a', 't']

/-- A joins, B joins, A starts the game (A becomes drawer), A selects the
word `"cat "`, B sends the chat message `"cat"`. -/
def c1Trace : List Event :=
  [.join 0 1 ['A'] 0, .join 0 2 ['B'] 1, .gameStart 0 1 2,
   .wordSelect 0 1 wordCatSpace 3, .chatMessage 0 2 ['B'] guessCat 4]

/-- A joins, A starts the game, A disconnects (roster becomes empty). -/
def c2Trace : List Event :=
  [.join 0 1 ['A'] 0, .gameStart 0 1 1, .disconnect 0 1]

/-- A joins, starts the game, selects a word (timer starts, expiry at
`62000`), then disconnects, emptying the roster. -/
def c3Trace : List Event :=
  [.join 0 1 ['A'] 0, .gameStart 0 1 1, .wordSelect 0 1 ['w'] 2, .disconnect 0 1]

/-- A joins, then B joins; no game has been started. -/
def c4Trace : List Event :=
  [.join 0 1 ['A'] 0, .join 0 2 ['B'] 1]

/-- A, B, X join; A starts the game (turn order `[1, 2, 3]`, cursor 1)
and selects a word; all three disconnect while the timer runs; C then D
join (C is not appended to the turn order because the roster was empty, D
is appended); the timer expires twice, with C reselecting a word in
between. -/
def c7Trace : List Event :=
  [.join 0 1 ['A'] 0, .join 0 2 ['B'] 1, .join 0 3 ['X'] 2,
   .gameStart 0 1 3,
   .wordSelect 0 1 ['w'] 4,
   .disconnect 0 1, .disconnect 0 2, .disconnect 0 3,
   .join 0 4 ['C'] 8, .join 0 5 ['D'] 9,
   .tick 0 60004,
   .wordSelect 0 4 ['w', '2'] 60010,
   .tick 0 120010]

/-- Participant A as stored after joining at time 0. -/
def userA : User := { id := 1, userName := ['A'], points := 0, joinedAt := 0 }

/-- Participant B as stored after joining at time 1. -/
def userB : User := { id := 2, userName := ['B'], points := 0, joinedAt := 1 }

/-- The roster of room 0 with A and B present. -/
def wRoster : List (UserId × User) := [(1, userA), (2, userB)]

/-- A game record mid-round: A is drawing the word `"cat"`, the round
timer expires at `63000`. -/
def wGame : Game :=
  { currentDrawer := some 1, currentWord := some guessCat, gameStarted := true
    turnStartTime := some 3, timerEndTime := some 63000 }

/-- A concrete mid-round state of room 0: A drawing `"cat"`, B yet to
guess, timer running. -/
def wState : ServerState :=
  { roomUsers := [(0, wRoster)]
    roomGames := [(0, wGame)]
    roomCorrectGuessers := [(0, [])]
    roomTimers := [(0, 60)]
    roomTurnOrder := [(0, [1, 2])]
    roomTurnIndex := [(0, 1)] }

/-- `wState` after B has already guessed correctly this round. -/
def wStateScored : ServerState :=
  { wState with roomCorrectGuessers := [(0, [2])] }

end GuessGame
namespace GuessGame

variable {V : Type}

theorem alGet_alSet_self (m : List (Nat × V)) (k : Nat) (v : V) :
    alGet (alSet m k v) k = some v := by
  induction m with
  | nil => simp [alSet, alGet]
  | cons p rest ih =>
    obtain ⟨k1, v1⟩ := p
    by_cases h : k1 = k <;> simp [alSet, alGet, h, ih]

theorem alGet_alSet_ne (m : List (Nat × V)) {k k2 : Nat} (v : V) (h : k ≠ k2) :
    alGet (alSet m k v) k2 = alGet m k2 := by
  induction m with
  | nil => simp [alSet, alGet, h]
  | cons p rest ih =>
    obtain ⟨k1, v1⟩ := p
    by_cases h1 : k1 = k
    · subst h1; simp [alSet, alGet, h]
    · simp [alSet, alGet, h1, ih]

theorem alGet_alDelete_self (m : List (Nat × V)) (k : Nat) :
    alGet (alDelete m k) k = none := by
  induction m with
  | nil => simp [alDelete, alGet]
  | cons p rest ih =>
    obtain ⟨k1, v1⟩ := p
    by_cases h : k1 = k <;> simp [alDelete, alGet, h, ih]

theorem alGet_alDelete_ne (m : List (Nat × V)) {k k2 : Nat} (h : k ≠ k2) :
    alGet (alDelete m k) k2 = alGet m k2 := by
  induction m with
  | nil => simp [alDelete, alGet]
  | cons p rest ih =>
    obtain ⟨k1, v1⟩ := p
    by_cases h1 : k1 = k
    · subst h1; simp [alDelete, alGet, h, ih]
    · simp [alDelete, alGet, h1, ih]

theorem alSet_self_of_get {m : List (Nat × V)} {k : Nat} {v : V}
    (h : alGet m k = some v) : alSet m k v = m := by
  induction m with
  | nil => simp [alGet] at h
  | cons p rest ih =>
    obtain ⟨k1, v1⟩ := p
    by_cases h1 : k1 = k
    · simp [alGet, h1] at h
      simp [alSet, h1, h]
    · simp [alGet, h1] at h
      simp [alSet, h1, ih h]

theorem alSet_alSet (m : List (Nat × V)) (k : Nat) (v v2 : V) :
    alSet (alSet m k v) k v2 = alSet m k v2 := by
  induction m with
  | nil => simp [alSet]
  | cons p rest ih =>
    obtain ⟨k1, v1⟩ := p
    by_cases h : k1 = k <;> simp [alSet, h, ih]

theorem alGet_updatePoints_self (roster : List (UserId × User)) (sid : UserId) (pts : Nat) :
    alGet (updatePoints roster sid pts) sid =
      (alGet roster sid).map (fun u => { u with points := u.points + pts }) := by
  induction roster with
  | nil => simp [updatePoints, alGet]
  | cons p rest ih =>
    obtain ⟨k1, v1⟩ := p
    by_cases h : k1 = sid <;> simp [updatePoints, alGet, h, ih]

theorem alGet_updatePoints_ne (roster : List (UserId × User)) {sid sid2 : UserId} (pts : Nat)
    (h : sid2 ≠ sid) :
    alGet (updatePoints roster sid pts) sid2 = alGet roster sid2 := by
  induction roster with
  | nil => simp [updatePoints, alGet]
  | cons p rest ih =>
    obtain ⟨k1, v1⟩ := p
    by_cases h1 : k1 = sid
    · subst h1
      have h2 : k1 ≠ sid2 := fun hh => h (hh ▸ rfl)
      simp [updatePoints, alGet, h2, ih]
    · by_cases h2 : k1 = sid2 <;> simp [updatePoints, alGet, h1, h2, h, ih]

theorem findDrawerLoop_mem {users : List User} {turnOrder : List UserId} :
    ∀ {fuel idx u i}, findDrawerLoop users turnOrder idx fuel = some (u, i) → u ∈ users := by
  intro fuel
  induction fuel with
  | zero => intro idx u i h; simp [findDrawerLoop] at h
  | succ n ih =>
    intro idx u i h
    simp only [findDrawerLoop] at h
    cases hg : turnOrder.get? idx with
    | none =>
      rw [hg] at h
      exact ih h
    | some uid =>
      rw [hg] at h
      simp only [] at h
      cases hf : users.find? (fun u => u.id == uid) with
      | none =>
        rw [hf] at h
        exact ih h
      | some u2 =>
        rw [hf] at h
        simp at h
        obtain ⟨rfl, -⟩ := h
        exact List.mem_of_find?_eq_some hf

theorem initializeGame_eq (s : ServerState) (r : RoomId) :
    initializeGame s r =
      ({ s with roomGames := alSet s.roomGames r ((alGet s.roomGames r).getD freshGame) },
       (alGet s.roomGames r).getD freshGame) := by
  unfold initializeGame
  cases hg : alGet s.roomGames r with
  | none => simp
  | some g => simp [alSet_self_of_get hg]

theorem clearTimer_eq (s : ServerState) (r : RoomId) :
    clearTimer s r =
      { s with
        roomTimers := alDelete s.roomTimers r
        roomGames := match alGet s.roomGames r with
          | some g => alSet s.roomGames r { g with timerEndTime := none }
          | none => s.roomGames } := by
  unfold clearTimer
  cases hg : alGet s.roomGames r <;> simp [hg]

theorem finishTurn_eq (s1 : ServerState) (room : RoomId) (now : Nat) (u : User) (i : Nat) :
    finishTurn s1 room now u i =
      ({ s1 with
          roomTurnIndex := alSet s1.roomTurnIndex room i
          roomTimers := alDelete s1.roomTimers room
          roomGames := alSet s1.roomGames room
            { currentDrawer := some u.id, currentWord := none, gameStarted := true,
              turnStartTime := some now, timerEndTime := none }
          roomCorrectGuessers := alSet s1.roomCorrectGuessers room [] },
       [Emitted.turnStart room u now]) := by
  unfold finishTurn
  simp only [clearTimer_eq, initializeGame_eq]
  cases hg : alGet s1.roomGames room <;>
    simp [hg, alGet_alSet_self, alSet_alSet, freshGame]

end GuessGame

namespace GuessGame

theorem startTimer_eq_of_game {s : ServerState} {room : RoomId} {g : Game}
    (hg : alGet s.roomGames room = some g) (d now : Nat) :
    startTimer s room d now =
      ({ s with
          roomGames := alSet s.roomGames room { g with timerEndTime := some (now + d * 1000) }
          roomTimers := alSet (alDelete s.roomTimers room) room d },
       [Emitted.timerUpdate room d d]) := by
  unfold startTimer
  simp only [clearTimer_eq, hg]
  simp [alGet_alSet_self, alSet_alSet]

theorem startNewTurn_shape {s : ServerState} {room : RoomId} {now : Nat}
    {roster : List (UserId × User)} (hroster : alGet s.roomUsers room = some roster)
    {u0 : User} {us : List User} (hv : alValues roster = u0 :: us) :
    ∃ u s2, startNewTurn s room now = some (s2, [Emitted.turnStart room u now]) ∧
      u ∈ alValues roster ∧
      s2.roomUsers = s.roomUsers ∧
      alGet s2.roomGames room = some (turnGame u.id now) ∧
      alGet s2.roomCorrectGuessers room = some [] ∧
      alGet s2.roomTimers room = none ∧
      (∀ r, r ≠ room → alGet s2.roomCorrectGuessers r = alGet s.roomCorrectGuessers r) ∧
      (∀ r, r ≠ room → alGet s2.roomGames r = alGet s.roomGames r) ∧
      (∀ r, r ≠ room → alGet s2.roomTimers r = alGet s.roomTimers r) := by
  have key : ∀ (s1 : ServerState) (u : User) (i : Nat),
      s1.roomUsers = s.roomUsers → s1.roomGames = s.roomGames →
      s1.roomCorrectGuessers = s.roomCorrectGuessers → s1.roomTimers = s.roomTimers →
      u ∈ u0 :: us →
      ∃ uu s2, some (finishTurn s1 room now u i) = some (s2, [Emitted.turnStart room uu now]) ∧
        uu ∈ u0 :: us ∧
        s2.roomUsers = s.roomUsers ∧
        alGet s2.roomGames room = some (turnGame uu.id now) ∧
        alGet s2.roomCorrectGuessers room = some [] ∧
        alGet s2.roomTimers room = none ∧
        (∀ r, r ≠ room → alGet s2.roomCorrectGuessers r = alGet s.roomCorrectGuessers r) ∧
        (∀ r, r ≠ room → alGet s2.roomGames r = alGet s.roomGames r) ∧
        (∀ r, r ≠ room → alGet s2.roomTimers r = alGet s.roomTimers r) := by
    intro s1 u i hU hG hC hT hu
    refine ⟨u, _, by rw [finishTurn_eq], hu, ?_, ?_, ?_, ?_, ?_, ?_, ?_⟩
    · simpa using hU
    · simp [alGet_alSet_self, turnGame]
    · simp [alGet_alSet_self]
    · simp [alGet_alDelete_self]
    · intro r hr
      simp [alGet_alSet_ne _ _ (fun h => hr h.symm), hC]
    · intro r hr
      simp [alGet_alSet_ne _ _ (fun h => hr h.symm), hG]
    · intro r hr
      simp [alGet_alDelete_ne _ (fun h => hr h.symm), hT]
  simp only [startNewTurn, hroster, hv]
  cases hto : alHas s.roomTurnOrder room with
  | true =>
    simp only [hto, if_true]
    cases hfd : findDrawerLoop (u0 :: us) ((alGet s.roomTurnOrder room).getD [])
        ((alGet s.roomTurnIndex room).getD 0) (u0 :: us).length with
    | some ui =>
      obtain ⟨u, i⟩ := ui
      simp only [hfd]
      exact key s u i rfl rfl rfl rfl (findDrawerLoop_mem hfd)
    | none =>
      simp only [hfd]
      exact key s u0 _ rfl rfl rfl rfl (List.mem_cons_self _ _)
  | false =>
    simp only [hto, if_false, Bool.false_eq_true]
    rw [alGet_alSet_self, alGet_alSet_self]
    cases hfd : findDrawerLoop (u0 :: us) ((some ((u0 :: us).map (·.id))).getD [])
        ((some 0).getD 0) (u0 :: us).length with
    | some ui =>
      obtain ⟨u, i⟩ := ui
      simp only [hfd]
      exact key _ u i rfl rfl rfl rfl (findDrawerLoop_mem hfd)
    | none =>
      simp only [hfd]
      exact key _ u0 _ rfl rfl rfl rfl (List.mem_cons_self _ _)

end GuessGame

namespace GuessGame

theorem handleJoin_cg (s : ServerState) (room : RoomId) (sid : UserId)
    (name : JsString) (now : Nat) :
    (handleJoin s room sid name now).1.roomCorrectGuessers = s.roomCorrectGuessers := by
  unfold handleJoin
  dsimp only
  split <;> split <;> rfl

theorem handleJoin_userPoints (s : ServerState) (room : RoomId) (sid : UserId)
    (name : JsString) (now : Nat) (r : RoomId) (uid : UserId)
    (h : ¬(r = room ∧ uid = sid)) :
    userPoints (handleJoin s room sid name now).1 r uid = userPoints s r uid := by
  unfold handleJoin userPoints
  by_cases hr : r = room
  · subst hr
    have huid : uid ≠ sid := fun hh => h ⟨rfl, hh⟩
    cases hro : alGet s.roomUsers r with
    | none =>
      simp only [alHas, hro, Option.isSome_none, Bool.false_eq_true, if_false,
        Option.getD_none, Option.getD_some, alGet_alSet_self]
      split <;>
        simp [alGet_alSet_self, alGet_alSet_ne _ _ (fun hh => huid hh.symm), alGet]
    | some roster =>
      simp only [alHas, hro, Option.isSome_some, if_true, Option.getD_some]
      split <;>
        simp [alGet_alSet_self, alGet_alSet_ne _ _ (fun hh => huid hh.symm), hro]
  · cases hro : alGet s.roomUsers room with
    | none =>
      simp only [alHas, hro, Option.isSome_none, Bool.false_eq_true, if_false,
        Option.getD_none]
      split <;> simp [alGet_alSet_ne _ _ (fun hh => hr hh.symm), hro]
    | some roster =>
      simp only [alHas, hro, Option.isSome_some, if_true, Option.getD_some]
      split <;> simp [alGet_alSet_ne _ _ (fun hh => hr hh.symm), hro]

end GuessGame

namespace GuessGame

theorem handleWordSelect_frame (s : ServerState) (room : RoomId) (sid : UserId)
    (w : JsString) (now : Nat) :
    (handleWordSelect s room sid w now).1.roomUsers = s.roomUsers ∧
    (handleWordSelect s room sid w now).1.roomCorrectGuessers = s.roomCorrectGuessers := by
  unfold handleWordSelect startTimer
  cases hg : alGet s.roomGames room with
  | none => simp
  | some g =>
    dsimp only
    by_cases hd : g.currentDrawer ≠ some sid
    · simp [hd]
    · simp only [hd, if_false, clearTimer_eq, alGet_alSet_self]
      simp [alGet_alSet_self]

theorem handleWordSelect_drawer_eq {s : ServerState} {room : RoomId} {sid : UserId}
    {g : Game} (hg : alGet s.roomGames room = some g)
    (hdr : g.currentDrawer = some sid) (w : JsString) (now : Nat) :
    handleWordSelect s room sid w now =
      ({ s with
          roomGames := alSet s.roomGames room
            { g with currentWord := some w, timerEndTime := some (now + 60 * 1000) }
          roomTimers := alSet (alDelete s.roomTimers room) room 60 },
       [Emitted.wordSelected room w sid, Emitted.timerUpdate room 60 60]) := by
  unfold handleWordSelect
  rw [hg]
  dsimp only
  rw [if_neg (by simp [hdr])]
  rw [startTimer_eq_of_game (g := { g with currentWord := some w })
    (by simp [alGet_alSet_self]) 60 now]
  simp [alSet_alSet]

theorem handleDisconnect_cg (s : ServerState) (room : RoomId) (sid : UserId) :
    (handleDisconnect s room sid).1.roomCorrectGuessers = s.roomCorrectGuessers := by
  unfold handleDisconnect
  cases alGet s.roomUsers room with
  | none => rfl
  | some roster => dsimp only; split <;> rfl

theorem handleDisconnect_userPoints (s : ServerState) (room : RoomId) (sid : UserId)
    (r : RoomId) (uid : UserId) :
    userPoints (handleDisconnect s room sid).1 r uid = userPoints s r uid ∨
    userPoints (handleDisconnect s room sid).1 r uid = none := by
  unfold handleDisconnect userPoints
  cases hro : alGet s.roomUsers room with
  | none => left; rfl
  | some roster =>
    dsimp only
    by_cases hr : r = room
    · subst hr
      split
      · right; simp [alGet_alDelete_self, alGet]
      · by_cases huid : uid = sid
        · subst huid; right; simp [alGet_alSet_self, alGet_alDelete_self]
        · left
          simp [alGet_alSet_self, alGet_alDelete_ne _ (fun hh => huid hh.symm), hro]
    · left
      split <;>
        simp [alGet_alSet_ne _ _ (fun hh => hr hh.symm),
          alGet_alDelete_ne _ (fun hh => hr hh.symm)]

theorem startNewTurn_roomUsers {s s2 : ServerState} {room : RoomId} {now : Nat}
    {ems : List Emitted} (h : startNewTurn s room now = some (s2, ems)) :
    s2.roomUsers = s.roomUsers := by
  unfold startNewTurn at h
  split at h
  · exact absurd h (by simp)
  · split at h
    · simp only [Option.some.injEq, Prod.mk.injEq] at h
      obtain ⟨rfl, rfl⟩ := h
      rfl
    · split at h <;>
      · dsimp only at h
        split at h <;>
        · rw [finishTurn_eq] at h
          simp only [Option.some.injEq, Prod.mk.injEq] at h
          obtain ⟨rfl, rfl⟩ := h
          rfl

theorem startNewTurn_cases {s s2 : ServerState} {room : RoomId} {now : Nat}
    {ems : List Emitted} (h : startNewTurn s room now = some (s2, ems)) :
    (s2 = s ∧ ems = []) ∨
    (∃ u, ems = [Emitted.turnStart room u now] ∧
      alGet s2.roomCorrectGuessers room = some [] ∧
      (∀ r, r ≠ room → alGet s2.roomCorrectGuessers r = alGet s.roomCorrectGuessers r)) := by
  unfold startNewTurn at h
  split at h
  · exact absurd h (by simp)
  · split at h
    · simp only [Option.some.injEq, Prod.mk.injEq] at h
      obtain ⟨rfl, rfl⟩ := h
      exact Or.inl ⟨rfl, rfl⟩
    · split at h <;>
      · dsimp only at h
        split at h <;>
        · rw [finishTurn_eq] at h
          simp only [Option.some.injEq, Prod.mk.injEq] at h
          obtain ⟨rfl, rfl⟩ := h
          refine Or.inr ⟨_, rfl, ?_, ?_⟩
          · simp [alGet_alSet_self]
          · intro r hr
            simp [alGet_alSet_ne _ _ (fun hh => hr hh.symm)]

end GuessGame

namespace GuessGame

theorem handleGameStart_cases {s s2 : ServerState} {room : RoomId} {sid : UserId}
    {now : Nat} {ems : List Emitted}
    (h : handleGameStart s room sid now = some (s2, ems)) :
    (s2 = (initializeGame s room).1 ∧ ems = []) ∨
    startNewTurn (initializeGame s room).1 room now = some (s2, ems) := by
  unfold handleGameStart at h
  rw [initializeGame_eq] at h
  rw [initializeGame_eq]
  dsimp only at h ⊢
  split at h
  · simp only [Option.some.injEq, Prod.mk.injEq] at h
    obtain ⟨rfl, rfl⟩ := h
    exact Or.inl ⟨rfl, rfl⟩
  · split at h
    · exact absurd h (by simp)
    · split at h
      · exact Or.inr h
      · simp only [Option.some.injEq, Prod.mk.injEq] at h
        obtain ⟨rfl, rfl⟩ := h
        exact Or.inl ⟨rfl, rfl⟩

theorem handleTick_cases {s s2 : ServerState} {room : RoomId} {now : Nat}
    {ems : List Emitted} (h : handleTick s room now = some (s2, ems)) :
    (s2 = s) ∨
    ∃ em ems2, ems = em :: ems2 ∧
      startNewTurn (clearTimer s room) room now = some (s2, ems2) := by
  unfold handleTick at h
  split at h
  · simp only [Option.some.injEq, Prod.mk.injEq] at h
    obtain ⟨rfl, rfl⟩ := h
    exact Or.inl rfl
  · split at h
    · exact absurd h (by simp)
    · dsimp only at h
      split at h
      · split at h
        · exact absurd h (by simp)
        · rename_i sx emsx heq
          simp only [Option.some.injEq, Prod.mk.injEq] at h
          obtain ⟨rfl, rfl⟩ := h
          exact Or.inr ⟨_, _, rfl, heq⟩
      · simp only [Option.some.injEq, Prod.mk.injEq] at h
        obtain ⟨rfl, rfl⟩ := h
        exact Or.inl rfl

end GuessGame

namespace GuessGame

theorem handleChatMessage_users_spec {s s2 : ServerState} {room : RoomId} {sid : UserId}
    {name msg : JsString} {t : Nat} {ems : List Emitted}
    (h : handleChatMessage s room sid name msg t = some (s2, ems)) :
    s2.roomUsers = s.roomUsers ∨
    ∃ roster pts, alGet s.roomUsers room = some roster ∧
      s2.roomUsers = alSet s.roomUsers room (updatePoints roster sid pts) := by
  unfold handleChatMessage at h
  cases hc : alGet s.roomCorrectGuessers room with
  | none =>
    simp only [alHas, hc, Option.isSome_none, Bool.false_eq_true, if_false,
      alGet_alSet_self, Option.getD_some] at h
    split at h
    · simp only [Option.some.injEq, Prod.mk.injEq] at h
      obtain ⟨rfl, rfl⟩ := h; exact Or.inl rfl
    · split at h
      · simp only [Option.some.injEq, Prod.mk.injEq] at h
        obtain ⟨rfl, rfl⟩ := h; exact Or.inl rfl
      · split at h
        · simp only [Option.some.injEq, Prod.mk.injEq] at h
          obtain ⟨rfl, rfl⟩ := h; exact Or.inl rfl
        · split at h
          · simp only [Option.some.injEq, Prod.mk.injEq] at h
            obtain ⟨rfl, rfl⟩ := h; exact Or.inl rfl
          · split at h
            · simp only [Option.some.injEq, Prod.mk.injEq] at h
              obtain ⟨rfl, rfl⟩ := h; exact Or.inl rfl
            · split at h
              · split at h
                · exact absurd h (by simp)
                · rename_i roster heq
                  simp only [Option.some.injEq, Prod.mk.injEq] at h
                  obtain ⟨rfl, rfl⟩ := h
                  exact Or.inr ⟨roster, _, heq, rfl⟩
              · simp only [Option.some.injEq, Prod.mk.injEq] at h
                obtain ⟨rfl, rfl⟩ := h; exact Or.inl rfl
  | some l =>
    simp only [alHas, hc, Option.isSome_some, if_true, Option.getD_some] at h
    split at h
    · simp only [Option.some.injEq, Prod.mk.injEq] at h
      obtain ⟨rfl, rfl⟩ := h; exact Or.inl rfl
    · split at h
      · simp only [Option.some.injEq, Prod.mk.injEq] at h
        obtain ⟨rfl, rfl⟩ := h; exact Or.inl rfl
      · split at h
        · simp only [Option.some.injEq, Prod.mk.injEq] at h
          obtain ⟨rfl, rfl⟩ := h; exact Or.inl rfl
        · split at h
          · simp only [Option.some.injEq, Prod.mk.injEq] at h
            obtain ⟨rfl, rfl⟩ := h; exact Or.inl rfl
          · split at h
            · simp only [Option.some.injEq, Prod.mk.injEq] at h
              obtain ⟨rfl, rfl⟩ := h; exact Or.inl rfl
            · split at h
              · split at h
                · exact absurd h (by simp)
                · rename_i roster heq
                  simp only [Option.some.injEq, Prod.mk.injEq] at h
                  obtain ⟨rfl, rfl⟩ := h
                  exact Or.inr ⟨roster, _, heq, rfl⟩
              · simp only [Option.some.injEq, Prod.mk.injEq] at h
                obtain ⟨rfl, rfl⟩ := h; exact Or.inl rfl

end GuessGame

namespace GuessGame

theorem handleChatMessage_cg_spec {s s2 : ServerState} {room : RoomId} {sid : UserId}
    {name msg : JsString} {t : Nat} {ems : List Emitted}
    (h : handleChatMessage s room sid name msg t = some (s2, ems)) :
    s2.roomCorrectGuessers = s.roomCorrectGuessers ∨
    (s2.roomCorrectGuessers = alSet s.roomCorrectGuessers room [] ∧ cgOf s room = []) ∨
    s2.roomCorrectGuessers = alSet s.roomCorrectGuessers room (cgOf s room ++ [sid]) := by
  unfold handleChatMessage at h
  cases hc : alGet s.roomCorrectGuessers room with
  | none =>
    simp only [alHas, hc, Option.isSome_none, Bool.false_eq_true, if_false,
      alGet_alSet_self, Option.getD_some] at h
    split at h
    · simp only [Option.some.injEq, Prod.mk.injEq] at h
      obtain ⟨rfl, rfl⟩ := h; exact Or.inl rfl
    · split at h
      · simp only [Option.some.injEq, Prod.mk.injEq] at h
        obtain ⟨rfl, rfl⟩ := h; exact Or.inl rfl
      · split at h
        · simp only [Option.some.injEq, Prod.mk.injEq] at h
          obtain ⟨rfl, rfl⟩ := h; exact Or.inl rfl
        · split at h
          · simp only [Option.some.injEq, Prod.mk.injEq] at h
            obtain ⟨rfl, rfl⟩ := h; exact Or.inl rfl
          · split at h
            · simp only [Option.some.injEq, Prod.mk.injEq] at h
              obtain ⟨rfl, rfl⟩ := h
              exact Or.inr (Or.inl ⟨rfl, by simp [cgOf, hc]⟩)
            · split at h
              · split at h
                · exact absurd h (by simp)
                · simp only [Option.some.injEq, Prod.mk.injEq] at h
                  obtain ⟨rfl, rfl⟩ := h
                  refine Or.inr (Or.inr ?_)
                  simp [cgOf, hc, alSet_alSet]
              · simp only [Option.some.injEq, Prod.mk.injEq] at h
                obtain ⟨rfl, rfl⟩ := h
                exact Or.inr (Or.inl ⟨rfl, by simp [cgOf, hc]⟩)
  | some l =>
    simp only [alHas, hc, Option.isSome_some, if_true, Option.getD_some] at h
    split at h
    · simp only [Option.some.injEq, Prod.mk.injEq] at h
      obtain ⟨rfl, rfl⟩ := h; exact Or.inl rfl
    · split at h
      · simp only [Option.some.injEq, Prod.mk.injEq] at h
        obtain ⟨rfl, rfl⟩ := h; exact Or.inl rfl
      · split at h
        · simp only [Option.some.injEq, Prod.mk.injEq] at h
          obtain ⟨rfl, rfl⟩ := h; exact Or.inl rfl
        · split at h
          · simp only [Option.some.injEq, Prod.mk.injEq] at h
            obtain ⟨rfl, rfl⟩ := h; exact Or.inl rfl
          · split at h
            · simp only [Option.some.injEq, Prod.mk.injEq] at h
              obtain ⟨rfl, rfl⟩ := h; exact Or.inl rfl
            · split at h
              · split at h
                · exact absurd h (by simp)
                · simp only [Option.some.injEq, Prod.mk.injEq] at h
                  obtain ⟨rfl, rfl⟩ := h
                  refine Or.inr (Or.inr ?_)
                  simp [cgOf, hc]
              · simp only [Option.some.injEq, Prod.mk.injEq] at h
                obtain ⟨rfl, rfl⟩ := h; exact Or.inl rfl

theorem handleChatMessage_cg_mem {s s2 : ServerState} {room : RoomId} {sid : UserId}
    {name msg : JsString} {t : Nat} {ems : List Emitted}
    (h : handleChatMessage s room sid name msg t = some (s2, ems))
    (r : RoomId) (uid : UserId) (hmem : uid ∈ cgOf s r) : uid ∈ cgOf s2 r := by
  rcases handleChatMessage_cg_spec h with h1 | ⟨h1, h0⟩ | h1
  · rw [cgOf, h1]; exact hmem
  · by_cases hr : r = room
    · subst hr; rw [h0] at hmem; simp at hmem
    · rw [cgOf, h1, alGet_alSet_ne _ _ (fun hh => hr hh.symm)]; exact hmem
  · by_cases hr : r = room
    · subst hr
      rw [cgOf, h1, alGet_alSet_self, Option.getD_some]
      exact List.mem_append_left _ hmem
    · rw [cgOf, h1, alGet_alSet_ne _ _ (fun hh => hr hh.symm)]; exact hmem

theorem handleChatMessage_points_mono {s s2 : ServerState} {room : RoomId} {sid : UserId}
    {name msg : JsString} {t : Nat} {ems : List Emitted}
    (h : handleChatMessage s room sid name msg t = some (s2, ems))
    (r : RoomId) (uid : UserId) {p p2 : Nat}
    (hp : userPoints s r uid = some p) (hp2 : userPoints s2 r uid = some p2) : p ≤ p2 := by
  rcases handleChatMessage_users_spec h with h1 | ⟨roster, pts, hro, h1⟩
  · have heqv : userPoints s2 r uid = userPoints s r uid := by
      rw [userPoints, userPoints, h1]
    rw [heqv, hp] at hp2
    exact le_of_eq (Option.some.inj hp2)
  · by_cases hr : r = room
    · subst hr
      by_cases huid : uid = sid
      · subst huid
        rw [userPoints, h1, alGet_alSet_self, Option.getD_some,
          alGet_updatePoints_self] at hp2
        rw [userPoints, hro, Option.getD_some] at hp
        cases hx : alGet roster uid with
        | none => rw [hx] at hp; simp at hp
        | some u =>
          rw [hx] at hp hp2
          simp at hp hp2
          subst hp
          rw [← hp2]
          exact Nat.le_add_right _ _
      · rw [userPoints, h1, alGet_alSet_self, Option.getD_some,
          alGet_updatePoints_ne _ _ huid] at hp2
        rw [userPoints, hro, Option.getD_some] at hp
        rw [hp] at hp2
        exact le_of_eq (Option.some.inj hp2)
    · rw [userPoints, h1, alGet_alSet_ne _ _ (fun hh => hr hh.symm)] at hp2
      rw [userPoints] at hp
      rw [hp] at hp2
      exact le_of_eq (Option.some.inj hp2)

end GuessGame

namespace GuessGame

theorem step_points_mono {s s2 : ServerState} {e : Event} {ems : List Emitted}
    (hstep : step s e = some (s2, ems)) (r : RoomId) (uid : UserId)
    (hfresh : ∀ name now, e ≠ Event.join r uid name now)
    {p p2 : Nat} (hp : userPoints s r uid = some p)
    (hp2 : userPoints s2 r uid = some p2) : p ≤ p2 := by
  cases e with
  | join room sid name now =>
    simp only [step, Option.some.injEq] at hstep
    have h1 : (handleJoin s room sid name now).1 = s2 := by rw [hstep]
    have hne : ¬(r = room ∧ uid = sid) := by
      rintro ⟨rfl, rfl⟩; exact hfresh name now rfl
    rw [← h1, handleJoin_userPoints s room sid name now r uid hne, hp] at hp2
    exact le_of_eq (Option.some.inj hp2)
  | wordSelect room sid w now =>
    simp only [step, Option.some.injEq] at hstep
    have h1 : (handleWordSelect s room sid w now).1 = s2 := by rw [hstep]
    have heqv : userPoints s2 r uid = userPoints s r uid := by
      rw [userPoints, userPoints, ← h1, (handleWordSelect_frame s room sid w now).1]
    rw [heqv, hp] at hp2
    exact le_of_eq (Option.some.inj hp2)
  | gameStart room sid now =>
    simp only [step] at hstep
    rcases handleGameStart_cases hstep with ⟨rfl, rfl⟩ | hsnt
    · have heqv : userPoints (initializeGame s room).1 r uid = userPoints s r uid := by
        rw [initializeGame_eq]
        rfl
      rw [heqv, hp] at hp2
      exact le_of_eq (Option.some.inj hp2)
    · have hU := startNewTurn_roomUsers hsnt
      have heqv : userPoints s2 r uid = userPoints s r uid := by
        rw [userPoints, userPoints, hU, initializeGame_eq]
      rw [heqv, hp] at hp2
      exact le_of_eq (Option.some.inj hp2)
  | chatMessage room sid name msg t =>
    simp only [step] at hstep
    exact handleChatMessage_points_mono hstep r uid hp hp2
  | disconnect room sid =>
    simp only [step, Option.some.injEq] at hstep
    have h1 : (handleDisconnect s room sid).1 = s2 := by rw [hstep]
    rcases handleDisconnect_userPoints s room sid r uid with heq | hnone
    · rw [← h1, heq, hp] at hp2
      exact le_of_eq (Option.some.inj hp2)
    · rw [← h1, hnone] at hp2
      exact absurd hp2 (by simp)
  | tick room now =>
    simp only [step] at hstep
    rcases handleTick_cases hstep with rfl | ⟨em, ems2, rfl, hsnt⟩
    · rw [hp] at hp2
      exact le_of_eq (Option.some.inj hp2)
    · have hU := startNewTurn_roomUsers hsnt
      rw [clearTimer_eq] at hU
      have heqv : userPoints s2 r uid = userPoints s r uid := by
        rw [userPoints, userPoints, hU]
      rw [heqv, hp] at hp2
      exact le_of_eq (Option.some.inj hp2)

theorem step_cg_persist {s s2 : ServerState} {e : Event} {ems : List Emitted}
    (hstep : step s e = some (s2, ems)) (r : RoomId) (uid : UserId)
    (hmem : uid ∈ cgOf s r) :
    uid ∈ cgOf s2 r ∨ ∃ u t, Emitted.turnStart r u t ∈ ems := by
  cases e with
  | join room sid name now =>
    simp only [step, Option.some.injEq] at hstep
    have h1 : (handleJoin s room sid name now).1 = s2 := by rw [hstep]
    left
    rw [cgOf, ← h1, handleJoin_cg]
    exact hmem
  | wordSelect room sid w now =>
    simp only [step, Option.some.injEq] at hstep
    have h1 : (handleWordSelect s room sid w now).1 = s2 := by rw [hstep]
    left
    rw [cgOf, ← h1, (handleWordSelect_frame s room sid w now).2]
    exact hmem
  | gameStart room sid now =>
    simp only [step] at hstep
    rcases handleGameStart_cases hstep with ⟨rfl, rfl⟩ | hsnt
    · left
      rw [cgOf, initializeGame_eq]
      exact hmem
    · rcases startNewTurn_cases hsnt with ⟨rfl, rfl⟩ | ⟨u, rfl, hcg0, hframe⟩
      · left
        rw [cgOf, initializeGame_eq]
        exact hmem
      · by_cases hr : r = room
        · subst hr
          exact Or.inr ⟨u, now, List.mem_singleton.mpr rfl⟩
        · left
          have := hframe r hr
          rw [initializeGame_eq] at this
          rw [cgOf, this]
          exact hmem
  | chatMessage room sid name msg t =>
    simp only [step] at hstep
    exact Or.inl (handleChatMessage_cg_mem hstep r uid hmem)
  | disconnect room sid =>
    simp only [step, Option.some.injEq] at hstep
    have h1 : (handleDisconnect s room sid).1 = s2 := by rw [hstep]
    left
    rw [cgOf, ← h1, handleDisconnect_cg]
    exact hmem
  | tick room now =>
    simp only [step] at hstep
    rcases handleTick_cases hstep with rfl | ⟨em, ems2, rfl, hsnt⟩
    · exact Or.inl hmem
    · rcases startNewTurn_cases hsnt with ⟨rfl, rfl⟩ | ⟨u, rfl, hcg0, hframe⟩
      · left
        rw [cgOf, clearTimer_eq]
        exact hmem
      · by_cases hr : r = room
        · subst hr
          exact Or.inr ⟨u, now, List.mem_cons_of_mem _ (List.mem_singleton.mpr rfl)⟩
        · left
          have := hframe r hr
          rw [clearTimer_eq] at this
          rw [cgOf, this]
          exact hmem

end GuessGame

namespace GuessGame

theorem handleChatMessage_already {s : ServerState} {room : RoomId} {sid : UserId}
    (hmem : sid ∈ cgOf s room) (name msg : JsString) (t : Nat) :
    handleChatMessage s room sid name msg t =
      some (s, [Emitted.chatMessage room name msg false none none]) := by
  unfold handleChatMessage
  cases hg : alGet s.roomGames room with
  | none => simp [hg]
  | some g =>
    cases hw : g.currentWord with
    | none => simp [hg, hw]
    | some w =>
      by_cases hempty : w.isEmpty
      · simp [hg, hw, hempty]
      · by_cases hdr : g.currentDrawer = some sid
        · simp [hg, hw, hempty, hdr]
        · cases hc : alGet s.roomCorrectGuessers room with
          | none =>
            exfalso
            rw [cgOf, hc] at hmem
            simp at hmem
          | some l =>
            have hmem2 : sid ∈ l := by rwa [cgOf, hc, Option.getD_some] at hmem
            simp [hg, hw, hempty, hdr, alHas, hc, hmem2]

theorem handleChatMessage_correct {s : ServerState} {room : RoomId} {sid : UserId}
    {g : Game} {w : JsString} {roster : List (UserId × User)}
    (hg : alGet s.roomGames room = some g) (hw : g.currentWord = some w)
    (hempty : w.isEmpty = false) (hdr : g.currentDrawer ≠ some sid)
    (hmem : sid ∉ cgOf s room) (hroster : alGet s.roomUsers room = some roster)
    {name msg : JsString} {t : Nat} (hmatch : guessMatches msg w = true) :
    handleChatMessage s room sid name msg t =
      some ({ s with
          roomCorrectGuessers := alSet s.roomCorrectGuessers room (cgOf s room ++ [sid])
          roomUsers := alSet s.roomUsers room
            (updatePoints roster sid (pointsForPosition ((cgOf s room).length + 1))) },
        correctGuessEmits room name
          (updatePoints roster sid (pointsForPosition ((cgOf s room).length + 1)))
          ((cgOf s room).length + 1)) := by
  unfold handleChatMessage
  cases hc : alGet s.roomCorrectGuessers room with
  | none =>
    have hcg0 : cgOf s room = [] := by rw [cgOf, hc]; rfl
    simp only [hg, hw, hempty, Bool.false_eq_true, if_false, alHas, hc, Option.isSome_none,
      alGet_alSet_self, Option.getD_some, hmatch, if_true, hcg0,
      List.not_mem_nil, hroster, if_neg hdr]
    simp [alSet_alSet, correctGuessEmits]
  | some l =>
    have hcgl : cgOf s room = l := by rw [cgOf, hc]; rfl
    have hmem2 : sid ∉ l := by rwa [hcgl] at hmem
    simp only [hg, hw, hempty, Bool.false_eq_true, if_false, alHas, hc, Option.isSome_some,
      if_true, Option.getD_some, hmatch, hcgl, hmem2, hroster, if_neg hdr]
    simp [correctGuessEmits, hmem2]

theorem handleChatMessage_incorrect {s : ServerState} {room : RoomId} {sid : UserId}
    {g : Game} {w : JsString}
    (hg : alGet s.roomGames room = some g) (hw : g.currentWord = some w)
    (hempty : w.isEmpty = false) (hdr : g.currentDrawer ≠ some sid)
    (hmem : sid ∉ cgOf s room)
    {name msg : JsString} {t : Nat} (hmatch : guessMatches msg w = false) :
    ∃ s1, handleChatMessage s room sid name msg t =
        some (s1, [Emitted.chatMessage room name msg false none none]) ∧
      cgOf s1 room = cgOf s room ∧ s1.roomUsers = s.roomUsers ∧
      s1.roomGames = s.roomGames := by
  unfold handleChatMessage
  cases hc : alGet s.roomCorrectGuessers room with
  | none =>
    have hcg0 : cgOf s room = [] := by rw [cgOf, hc]; rfl
    simp only [hg, hw, hempty, Bool.false_eq_true, if_false, alHas, hc, Option.isSome_none,
      alGet_alSet_self, Option.getD_some, hmatch, List.not_mem_nil, if_neg hdr]
    refine ⟨_, rfl, ?_, rfl, rfl⟩
    simp [cgOf, alGet_alSet_self, hc]
  | some l =>
    have hcgl : cgOf s room = l := by rw [cgOf, hc]; rfl
    have hmem2 : sid ∉ l := by rwa [hcgl] at hmem
    simp only [hg, hw, hempty, Bool.false_eq_true, if_false, alHas, hc, Option.isSome_some,
      if_true, Option.getD_some, hmatch, hmem2, if_neg hdr]
    exact ⟨s, by simp [hmem2], rfl, rfl, rfl⟩

end GuessGame

namespace GuessGame

theorem startNewTurn_empty {s : ServerState} {room : RoomId} {now : Nat}
    {roster : List (UserId × User)} (hroster : alGet s.roomUsers room = some roster)
    (hv : alValues roster = []) :
    startNewTurn s room now = some (s, []) := by
  unfold startNewTurn
  simp only [hroster, hv]

theorem handleTick_active {s : ServerState} {room : RoomId} {total : Nat} {g : Game}
    {e : Nat} (ht : alGet s.roomTimers room = some total)
    (hg : alGet s.roomGames room = some g) (he : g.timerEndTime = some e)
    {now : Nat} (hpos : jsRemaining e now ≠ 0) :
    handleTick s room now =
      some (s, [Emitted.timerUpdate room (jsRemaining e now) total]) := by
  unfold handleTick
  simp only [ht, hg, he, hpos, if_false]

theorem handleTick_expiry {s : ServerState} {room : RoomId} {total : Nat} {g : Game}
    {e : Nat} {roster : List (UserId × User)} {u0 : User} {us : List User}
    (ht : alGet s.roomTimers room = some total) (hg : alGet s.roomGames room = some g)
    (he : g.timerEndTime = some e) {now : Nat} (hz : jsRemaining e now = 0)
    (hroster : alGet s.roomUsers room = some roster) (hv : alValues roster = u0 :: us) :
    ∃ u s2, handleTick s room now =
        some (s2, [Emitted.timerUpdate room 0 total, Emitted.turnStart room u now]) ∧
      u ∈ alValues roster ∧ alGet s2.roomTimers room = none ∧
      alGet s2.roomCorrectGuessers room = some [] := by
  have hcl : alGet (clearTimer s room).roomUsers room = some roster := by
    rw [clearTimer_eq]; exact hroster
  obtain ⟨u, s2, heq, hmemu, hU, hG, hcg, hT, -, -, -⟩ := startNewTurn_shape hcl hv
  unfold handleTick
  simp only [ht, hg, he, hz, if_true]
  rw [heq]
  exact ⟨u, s2, rfl, hmemu, hT, hcg⟩

theorem handleGameStart_started {s : ServerState} {room : RoomId} {sid : UserId}
    {now : Nat} {g : Game} (hg : alGet s.roomGames room = some g)
    (hst : g.gameStarted = true) :
    handleGameStart s room sid now = some (s, []) := by
  unfold handleGameStart
  rw [initializeGame_eq]
  simp only [hg, Option.getD_some, hst, if_true, alSet_self_of_get hg]

theorem handleGameStart_notCreator_present {s : ServerState} {room : RoomId}
    {sid : UserId} {now : Nat} {g : Game} {roster : List (UserId × User)}
    {u0 : User} {us : List User}
    (hg : alGet s.roomGames room = some g) (hst : g.gameStarted = false)
    (hroster : alGet s.roomUsers room = some roster)
    (hv : alValues roster = u0 :: us) (hne : u0.id ≠ sid) :
    handleGameStart s room sid now = some (s, []) := by
  unfold handleGameStart
  rw [initializeGame_eq]
  simp only [hg, Option.getD_some, hst, Bool.false_eq_true, if_false,
    alSet_self_of_get hg, hroster, hv, hne]
  simp [hne]

theorem handleGameStart_notCreator_absent {s : ServerState} {room : RoomId}
    {sid : UserId} {now : Nat} {roster : List (UserId × User)}
    {u0 : User} {us : List User}
    (hg : alGet s.roomGames room = none)
    (hroster : alGet s.roomUsers room = some roster)
    (hv : alValues roster = u0 :: us) (hne : u0.id ≠ sid) :
    handleGameStart s room sid now =
      some ({ s with roomGames := alSet s.roomGames room freshGame }, []) := by
  unfold handleGameStart
  rw [initializeGame_eq]
  simp only [hg, Option.getD_none, freshGame, Bool.false_eq_true, if_false,
    hroster, hv]
  simp [hne, freshGame]

theorem handleWordSelect_reject {s : ServerState} {room : RoomId} {sid : UserId}
    {w : JsString} {now : Nat}
    (h : ∀ g, alGet s.roomGames room = some g → g.currentDrawer ≠ some sid) :
    handleWordSelect s room sid w now = (s, []) := by
  unfold handleWordSelect
  cases hg : alGet s.roomGames room with
  | none => rfl
  | some g => simp [h g hg]

end GuessGame

namespace GuessGame

/-- Claim C1, counterexample.  The spec claims a guess is judged correct
exactly when guess and stored word agree after lowercasing AND trimming
both; the code never trims the stored word (line 276 lowercases it only).
With stored word `"cat "` (trailing space, stored verbatim by
`word:select`) and guess `"cat"`, the two agree under the spec's
normalization, yet the non-drawer guesser B gets no `guess:correct`
emission and is not added to the correct-guesser set, while the word is
active and B is not the drawer. -/
theorem C1_counterexample :
    specNormalize guessCat = specNormalize wordCatSpace ∧
    (runTrace initState c1Trace).map (fun r =>
      (guessCorrects r.2, cgOf r.1 0,
        (alGet r.1.roomGames 0).map (fun g => (g.currentWord, g.currentDrawer)))) =
      some ([], [], some (some wordCatSpace, some 1)) := ⟨rfl, rfl⟩

/-- Claim C2, code bug.  In the socket.io variant the disconnect that
empties the roster deletes only the roster map: the game record (with its
stale `gameStarted = true`), the turn order and the correct-guesser set
all survive (first conjunct).  Consequently B joining the emptied room
and sending `game:start` is silently rejected (second conjunct: the only
`turn:start` ever emitted is A's original one), whereas the same two
events against a fresh server give B a turn (third conjunct) — rejoining
after emptying does not behave like a first-ever join. -/
theorem C2_code_bug :
    (runTrace initState c2Trace).map (fun r =>
      (alGet r.1.roomUsers 0, alGet r.1.roomGames 0, alGet r.1.roomTurnOrder 0,
        alGet r.1.roomCorrectGuessers 0)) =
      some (none, some (turnGame 1 1), some [1], some []) ∧
    (runTrace initState (c2Trace ++ [.join 0 2 ['B'] 2, .gameStart 0 2 3])).map
      (fun r => turnStarts r.2) = some [(0, 1, 1)] ∧
    (runTrace initState [.join 0 2 ['B'] 2, .gameStart 0 2 3]).map
      (fun r => turnStarts r.2) = some [(0, 2, 3)] := ⟨rfl, rfl, rfl⟩

/-- Claim C3, code bug.  After the roster-emptying disconnect the room's
interval is still registered (first conjunct: roster gone, timer still
present), a later tick still fires and emits a `timer:update` for the
deleted room (second conjunct), and the expiry tick crashes: it calls
`startNewTurn`, which evaluates `roomUsers.get(room).values()` on
`undefined` and throws (third conjunct: the run aborts). -/
theorem C3_code_bug :
    (runTrace initState c3Trace).map (fun r =>
      (alGet r.1.roomUsers 0, alGet r.1.roomTimers 0)) = some (none, some 60) ∧
    (runTrace initState (c3Trace ++ [.tick 0 30002])).map
      (fun r => timerUpdates r.2) = some [(0, 60, 60), (0, 30, 60)] ∧
    runTrace initState (c3Trace ++ [.tick 0 62000]) = none := ⟨rfl, rfl, rfl⟩

/-- Claim C4, counterexample.  A `game:start` by B (not first in the
roster) in a room with no game record is silently rejected — B gets no
event — but it is not free of state change: `initializeGame` runs before
the authorization check and creates the default game record, so
`roomGames` goes from absent to present. -/
theorem C4_counterexample :
    (runTrace initState c4Trace).map (fun r => (alGet r.1.roomGames 0, r.2.length)) =
      some (none, 4) ∧
    (runTrace initState (c4Trace ++ [.gameStart 0 2 2])).map
      (fun r => (alGet r.1.roomGames 0, r.2.length)) =
      some (some freshGame, 4) := ⟨rfl, rfl⟩

/-- Claim C7, counterexample.  In `c7Trace` the turn order is
`[1, 2, 3, 5]` with users 1, 2, 3 gone and the roster `[4, 5]` (C and D,
both present).  The skip loop is bounded by the roster size (2), so
starting from cursor 1 it inspects only the departed users 2 and 3,
exhausts its attempts, and falls back to `users[0]` = C — twice in a row.
The advances emit drawers A, C, C: C repeats while the present
participant D (who is even in the stored order) is never visited,
refuting "repeated advances visit every currently-present participant
before repeating any". -/
theorem C7_counterexample :
    (runTrace initState c7Trace).map (fun r =>
      (turnStarts r.2, ((alGet r.1.roomUsers 0).getD []).map (·.1),
        alGet r.1.roomTurnOrder 0)) =
      some ([(0, 1, 3), (0, 4, 60004), (0, 4, 120010)], [4, 5], some [1, 2, 3, 5]) := rfl

end GuessGame

namespace GuessGame

/-- Claim C1 (amended): for every room with an active secret word and
every non-drawer participant not already in the round's correct-guesser
set, the submitted text is judged correct exactly when the lowercased,
trimmed guess equals the lowercased — but never trimmed — stored word.
`" Cat "` still matches a stored `"cat"` and no partial or fuzzy matching
exists, but a stored word carrying surrounding whitespace is unmatchable. -/
theorem C1_amended (s : ServerState) (room : RoomId) (sid : UserId) (g : Game)
    (w : JsString) (roster : List (UserId × User))
    (hg : alGet s.roomGames room = some g) (hw : g.currentWord = some w)
    (hempty : w.isEmpty = false) (hdr : g.currentDrawer ≠ some sid)
    (hmem : sid ∉ cgOf s room) (hroster : alGet s.roomUsers room = some roster)
    (name msg : JsString) (t : Nat) :
    ∃ s2 ems, handleChatMessage s room sid name msg t = some (s2, ems) ∧
      ((sid ∈ cgOf s2 room ∧ guessCorrects ems ≠ []) ↔
        jsToLower (jsTrim msg) = jsToLower w) := by
  by_cases hm : guessMatches msg w = true
  · refine ⟨_, _, handleChatMessage_correct hg hw hempty hdr hmem hroster hm, ?_⟩
    have heq : jsToLower (jsTrim msg) = jsToLower w := by
      simpa [guessMatches] using hm
    simp only [heq, iff_true]
    constructor
    · simp [cgOf, alGet_alSet_self]
    · simp [correctGuessEmits, guessCorrects]
  · have hm2 : guessMatches msg w = false := by simpa using hm
    obtain ⟨s1, heq1, hcg1, -, -⟩ :=
      handleChatMessage_incorrect hg hw hempty hdr hmem hm2
    refine ⟨_, _, heq1, ?_⟩
    have hne : ¬jsToLower (jsTrim msg) = jsToLower w := by
      simpa [guessMatches] using hm2
    simp only [hne, iff_false]
    rintro ⟨-, hgc⟩
    exact hgc (by simp [guessCorrects])

/-- Witness for C1's amended theorem: in `wState` (stored word `"cat"`),
the non-drawer B submits `" Cat "`. -/
theorem C1_amended_witness :
    ∃ s2 ems, handleChatMessage wState 0 2 ['B'] [' ', 'C', 'a', 't', ' '] 5 =
        some (s2, ems) ∧
      ((2 ∈ cgOf s2 0 ∧ guessCorrects ems ≠ []) ↔
        jsToLower (jsTrim [' ', 'C', 'a', 't', ' ']) = jsToLower guessCat) :=
  C1_amended wState 0 2 wGame guessCat wRoster rfl rfl rfl (by decide) (by decide)
    rfl ['B'] [' ', 'C', 'a', 't', ' '] 5

/-- Claim C4 (amended): unauthorized actions are silently rejected with
no emission and no state change, except that a `game:start` by a
non-creator in a room without a game record still creates the default
record (`initializeGame` runs before the authorization check): (1) a
`word:select` by a non-drawer is a perfect no-op; (2) a `game:start` with
the started flag already set is a perfect no-op; (3) a `game:start` by a
participant who is not first in the roster is a perfect no-op when the
game record exists, and (4) otherwise changes exactly `roomGames`,
inserting the default record. -/
theorem C4_amended :
    (∀ s room sid w now,
      (∀ g, alGet s.roomGames room = some g → g.currentDrawer ≠ some sid) →
      handleWordSelect s room sid w now = (s, [])) ∧
    (∀ s room sid now g, alGet s.roomGames room = some g → g.gameStarted = true →
      handleGameStart s room sid now = some (s, [])) ∧
    (∀ s room sid now g roster u0 us, alGet s.roomGames room = some g →
      g.gameStarted = false → alGet s.roomUsers room = some roster →
      alValues roster = u0 :: us → u0.id ≠ sid →
      handleGameStart s room sid now = some (s, [])) ∧
    (∀ s room sid now roster u0 us, alGet s.roomGames room = none →
      alGet s.roomUsers room = some roster → alValues roster = u0 :: us →
      u0.id ≠ sid →
      handleGameStart s room sid now =
        some ({ s with roomGames := alSet s.roomGames room freshGame }, [])) :=
  ⟨fun _ _ _ _ _ h => handleWordSelect_reject h,
   fun _ _ _ _ _ hg hst => handleGameStart_started hg hst,
   fun _ _ _ _ _ _ _ _ hg hst hroster hv hne =>
     handleGameStart_notCreator_present hg hst hroster hv hne,
   fun _ _ _ _ _ _ _ hg hroster hv hne =>
     handleGameStart_notCreator_absent hg hroster hv hne⟩

/-- Witness for C4's amended theorem: B (not the drawer, not the creator)
fails to select a word or restart the already-started game in `wState`. -/
theorem C4_amended_witness :
    handleWordSelect wState 0 2 ['d', 'o', 'g'] 9 = (wState, []) ∧
    handleGameStart wState 0 2 9 = some (wState, []) :=
  ⟨C4_amended.1 wState 0 2 ['d', 'o', 'g'] 9
      (fun g hgg => by
        have hbase : alGet wState.roomGames 0 = some wGame := rfl
        obtain rfl : wGame = g := Option.some.inj (hbase.symm.trans hgg)
        decide),
   C4_amended.2.1 wState 0 2 9 wGame rfl rfl⟩

/-- Claim C5: a correct guess inserts the guesser into the correct-guesser
set, the rank is the size of the set after insertion, the awarded points
follow exactly 100/75/50/25/25/10-for-rank-6-and-up, the points are added
to the participant's accumulated total, and over every step of the system
(any event, any room, any participant present before and after, rejoining
under a fresh identifier aside) accumulated points never decrease. -/
theorem C5_scoring_and_monotonicity :
    (∀ s room sid g w roster name msg t,
      alGet s.roomGames room = some g → g.currentWord = some w →
      w.isEmpty = false → g.currentDrawer ≠ some sid → sid ∉ cgOf s room →
      alGet s.roomUsers room = some roster → guessMatches msg w = true →
      ∃ s2, handleChatMessage s room sid name msg t =
          some (s2, correctGuessEmits room name
            (updatePoints roster sid (pointsForPosition ((cgOf s room).length + 1)))
            ((cgOf s room).length + 1)) ∧
        cgOf s2 room = cgOf s room ++ [sid] ∧
        userPoints s2 room sid =
          (userPoints s room sid).map
            (fun p => p + pointsForPosition ((cgOf s room).length + 1))) ∧
    (pointsForPosition 1 = 100 ∧ pointsForPosition 2 = 75 ∧
      pointsForPosition 3 = 50 ∧ pointsForPosition 4 = 25 ∧
      pointsForPosition 5 = 25 ∧ ∀ pos, 6 ≤ pos → pointsForPosition pos = 10) ∧
    (∀ s e s2 ems r uid p p2, step s e = some (s2, ems) →
      (∀ name now, e ≠ Event.join r uid name now) →
      userPoints s r uid = some p → userPoints s2 r uid = some p2 → p ≤ p2) := by
  refine ⟨?_, ⟨rfl, rfl, rfl, rfl, rfl, ?_⟩, ?_⟩
  · intro s room sid g w roster name msg t hg hw hempty hdr hmem hroster hmatch
    refine ⟨_, handleChatMessage_correct hg hw hempty hdr hmem hroster hmatch, ?_, ?_⟩
    · simp [cgOf, alGet_alSet_self]
    · rw [userPoints, userPoints]
      dsimp only
      rw [alGet_alSet_self, Option.getD_some, alGet_updatePoints_self, hroster,
        Option.getD_some]
      cases alGet roster sid <;> simp
  · intro pos hpos
    unfold pointsForPosition
    rw [if_neg (by omega), if_neg (by omega), if_neg (by omega), if_neg (by omega)]
  · intro s e s2 ems r uid p p2 hstep hfresh hp hp2
    exact step_points_mono hstep r uid hfresh hp hp2

/-- Witness for C5: in `wState` the non-drawer B guesses `"cat"`
correctly as the first guesser, and rank 7 is worth 10 points. -/
theorem C5_witness :
    (∃ s2, handleChatMessage wState 0 2 ['B'] guessCat 5 =
        some (s2, correctGuessEmits 0 ['B']
          (updatePoints wRoster 2 (pointsForPosition ((cgOf wState 0).length + 1)))
          ((cgOf wState 0).length + 1)) ∧
      cgOf s2 0 = cgOf wState 0 ++ [2] ∧
      userPoints s2 0 2 =
        (userPoints wState 0 2).map
          (fun p => p + pointsForPosition ((cgOf wState 0).length + 1))) ∧
    pointsForPosition 7 = 10 :=
  ⟨C5_scoring_and_monotonicity.1 wState 0 2 wGame guessCat wRoster ['B'] guessCat 5
      rfl rfl rfl (by decide) (by decide) rfl (by decide),
   C5_scoring_and_monotonicity.2.1.2.2.2.2.2 7 (by decide)⟩

/-- Claim C6: guess evaluation is idempotent per participant per round: a
chat message from a participant already in the room's correct-guesser set
leaves the state exactly unchanged and emits only the plain chat relay
(no scoring event, no points); and across every step of the system a
participant stays in the set unless that step emits a `turn:start` for
the room — the set is cleared only when a new turn begins. -/
theorem C6_guess_idempotent :
    (∀ s room sid name msg t, sid ∈ cgOf s room →
      handleChatMessage s room sid name msg t =
        some (s, [Emitted.chatMessage room name msg false none none])) ∧
    (∀ s e s2 ems r uid, step s e = some (s2, ems) → uid ∈ cgOf s r →
      uid ∈ cgOf s2 r ∨ ∃ u t, Emitted.turnStart r u t ∈ ems) :=
  ⟨fun _ _ _ name msg t hmem => handleChatMessage_already hmem name msg t,
   fun _ _ _ _ _ _ hstep hmem => step_cg_persist hstep _ _ hmem⟩

/-- Witness for C6: B already guessed this round in `wStateScored`;
resubmitting the correct word changes nothing and awards nothing, and a
further step keeps B in the set. -/
theorem C6_witness :
    handleChatMessage wStateScored 0 2 ['B'] guessCat 6 =
      some (wStateScored, [Emitted.chatMessage 0 ['B'] guessCat false none none]) ∧
    (2 ∈ cgOf wStateScored 0 ∨
      ∃ u t, Emitted.turnStart 0 u t ∈
        [Emitted.chatMessage 0 ['B'] guessCat false none none]) :=
  ⟨C6_guess_idempotent.1 wStateScored 0 2 ['B'] guessCat 6 (by decide),
   C6_guess_idempotent.2 wStateScored (Event.chatMessage 0 2 ['B'] guessCat 6)
     wStateScored [Emitted.chatMessage 0 ['B'] guessCat false none none] 0 2
     rfl (by decide)⟩

/-- Claim C7 (amended): under the round-robin policy, advancing the turn
in a room with a non-empty roster always selects a currently-present
participant (next present identifier in stored order within at most
roster-size skip attempts, else the fallback takes the first present
participant); however, because the skip attempts are bounded by the
roster size rather than the stored-order length, the fallback can repeat
the first present participant while another present participant is never
visited, so repeated advances need not visit every currently-present
participant before repeating one. -/
theorem C7_amended :
    ∀ s room now roster, alGet s.roomUsers room = some roster → roster ≠ [] →
      ∃ u s2, startNewTurn s room now = some (s2, [Emitted.turnStart room u now]) ∧
        u ∈ alValues roster := by
  intro s room now roster hro hne
  cases hv : alValues roster with
  | nil => exact absurd (List.map_eq_nil_iff.mp hv) hne
  | cons u0 us =>
    obtain ⟨u, s2, heq, hmem, -, -, -, -, -, -, -⟩ := startNewTurn_shape hro hv
    exact ⟨u, s2, heq, hv ▸ hmem⟩

/-- Witness for C7's amended theorem: advancing the turn in `wState`. -/
theorem C7_amended_witness :
    ∃ u s2, startNewTurn wState 0 7 = some (s2, [Emitted.turnStart 0 u 7]) ∧
      u ∈ alValues wRoster :=
  C7_amended wState 0 7 wRoster rfl (by decide)

end GuessGame

namespace GuessGame

/-- Claim C8: starting the round timer with duration `d` supersedes any
prior timer (the room's registered timer is exactly the new one), stamps
the expiry `now + d * 1000`, and immediately emits `remaining = d`,
`total = d`; a tick with non-zero remaining time emits exactly
`max(0, ceil((expiry - now)/1000))` and changes nothing; and the tick
that reaches zero emits the final zero update plus exactly one
`turn:start` and removes the room's timer, so the expired timer never
ticks again. -/
theorem C8_timer_lifecycle :
    (∀ s room d now g, alGet s.roomGames room = some g →
      startTimer s room d now =
        ({ s with
            roomGames := alSet s.roomGames room
              { g with timerEndTime := some (now + d * 1000) }
            roomTimers := alSet (alDelete s.roomTimers room) room d },
         [Emitted.timerUpdate room d d]) ∧
      alGet (startTimer s room d now).1.roomTimers room = some d) ∧
    (∀ s room total g (e now : Nat), alGet s.roomTimers room = some total →
      alGet s.roomGames room = some g → g.timerEndTime = some e →
      jsRemaining e now ≠ 0 →
      handleTick s room now =
        some (s, [Emitted.timerUpdate room (jsRemaining e now) total])) ∧
    (∀ s room total g (e now : Nat) roster u0 us, alGet s.roomTimers room = some total →
      alGet s.roomGames room = some g → g.timerEndTime = some e →
      jsRemaining e now = 0 → alGet s.roomUsers room = some roster →
      alValues roster = u0 :: us →
      ∃ u s2, handleTick s room now =
          some (s2, [Emitted.timerUpdate room 0 total, Emitted.turnStart room u now]) ∧
        u ∈ alValues roster ∧ alGet s2.roomTimers room = none ∧
        alGet s2.roomCorrectGuessers room = some []) := by
  refine ⟨?_, ?_, ?_⟩
  · intro s room d now g hg
    refine ⟨startTimer_eq_of_game hg d now, ?_⟩
    rw [startTimer_eq_of_game hg d now]
    simp [alGet_alSet_self]
  · intro s room total g e now ht hg he hpos
    exact handleTick_active ht hg he hpos
  · intro s room total g e now roster u0 us ht hg he hz hroster hv
    exact handleTick_expiry ht hg he hz hroster hv

/-- Witness for C8: restarting and ticking the timer of `wState` (expiry
63000): a tick at 3000 shows 60 seconds left; the tick at 63000 expires,
hands the turn on and deregisters the timer. -/
theorem C8_witness :
    (startTimer wState 0 60 100 =
        ({ wState with
            roomGames := alSet wState.roomGames 0
              { wGame with timerEndTime := some (100 + 60 * 1000) }
            roomTimers := alSet (alDelete wState.roomTimers 0) 0 60 },
         [Emitted.timerUpdate 0 60 60]) ∧
      alGet (startTimer wState 0 60 100).1.roomTimers 0 = some 60) ∧
    handleTick wState 0 3000 =
      some (wState, [Emitted.timerUpdate 0 (jsRemaining 63000 3000) 60]) ∧
    (∃ u s2, handleTick wState 0 63000 =
        some (s2, [Emitted.timerUpdate 0 0 60, Emitted.turnStart 0 u 63000]) ∧
      u ∈ alValues wRoster ∧ alGet s2.roomTimers 0 = none ∧
      alGet s2.roomCorrectGuessers 0 = some []) :=
  ⟨C8_timer_lifecycle.1 wState 0 60 100 wGame rfl,
   C8_timer_lifecycle.2.1 wState 0 60 wGame 63000 3000 rfl rfl rfl (by decide),
   C8_timer_lifecycle.2.2 wState 0 60 wGame 63000 63000 wRoster userA [userB]
     rfl rfl rfl (by decide) rfl rfl⟩

/-- Claim C9: `startNewTurn` is a no-op on an empty roster; on a
non-empty roster it cancels any running round timer, selects a
currently-present drawer, resets the secret word to absent, sets the
started flag, stamps the round start time, clears the correct-guesser
set, and emits exactly one `turn:start` event carrying the drawer and the
turn start time. -/
theorem C9_startNewTurn_contract :
    (∀ s room now roster, alGet s.roomUsers room = some roster →
      alValues roster = [] → startNewTurn s room now = some (s, [])) ∧
    (∀ s room now roster, alGet s.roomUsers room = some roster → roster ≠ [] →
      ∃ u s2, startNewTurn s room now = some (s2, [Emitted.turnStart room u now]) ∧
        u ∈ alValues roster ∧ alGet s2.roomTimers room = none ∧
        alGet s2.roomGames room = some (turnGame u.id now) ∧
        alGet s2.roomCorrectGuessers room = some []) := by
  constructor
  · intro s room now roster hro hv
    exact startNewTurn_empty hro hv
  · intro s room now roster hro hne
    cases hv : alValues roster with
    | nil => exact absurd (List.map_eq_nil_iff.mp hv) hne
    | cons u0 us =>
      obtain ⟨u, s2, heq, hmem, -, hG, hcg, hT, -, -, -⟩ := startNewTurn_shape hro hv
      exact ⟨u, s2, heq, hv ▸ hmem, hT, by rw [hG], hcg⟩

/-- Witness for C9: the no-op on a room whose roster map is empty, and a
full turn start in `wState`. -/
theorem C9_witness :
    startNewTurn { initState with roomUsers := [(0, [])] } 0 5 =
      some ({ initState with roomUsers := [(0, [])] }, []) ∧
    (∃ u s2, startNewTurn wState 0 8 = some (s2, [Emitted.turnStart 0 u 8]) ∧
      u ∈ alValues wRoster ∧ alGet s2.roomTimers 0 = none ∧
      alGet s2.roomGames 0 = some (turnGame u.id 8) ∧
      alGet s2.roomCorrectGuessers 0 = some []) :=
  ⟨C9_startNewTurn_contract.1 { initState with roomUsers := [(0, [])] } 0 5 [] rfl rfl,
   C9_startNewTurn_contract.2 wState 0 8 wRoster rfl (by decide)⟩

/-- Claim C10: when the current drawer selects a new word mid-round the
engine overwrites the secret word, restarts the 60-second timer from full
duration (fresh expiry `now + 60 * 1000`, fresh `timer:update 60/60`),
and touches neither the correct-guesser set nor any participant record,
so every participant who already scored this turn still cannot score
against the new word. -/
theorem C10_word_reselect :
    ∀ s room sid g w0 w now, alGet s.roomGames room = some g →
      g.currentDrawer = some sid → g.currentWord = some w0 →
      (handleWordSelect s room sid w now).2 =
        [Emitted.wordSelected room w sid, Emitted.timerUpdate room 60 60] ∧
      alGet (handleWordSelect s room sid w now).1.roomGames room =
        some { g with currentWord := some w, timerEndTime := some (now + 60 * 1000) } ∧
      alGet (handleWordSelect s room sid w now).1.roomTimers room = some 60 ∧
      (handleWordSelect s room sid w now).1.roomCorrectGuessers =
        s.roomCorrectGuessers ∧
      (handleWordSelect s room sid w now).1.roomUsers = s.roomUsers ∧
      (∀ uid name msg t, uid ∈ cgOf s room →
        handleChatMessage (handleWordSelect s room sid w now).1 room uid name msg t =
          some ((handleWordSelect s room sid w now).1,
            [Emitted.chatMessage room name msg false none none])) := by
  intro s room sid g w0 w now hg hdr hw0
  rw [handleWordSelect_drawer_eq hg hdr w now]
  refine ⟨rfl, ?_, ?_, rfl, rfl, ?_⟩
  · simp [alGet_alSet_self]
  · simp [alGet_alSet_self]
  · intro uid name msg t hmem
    refine handleChatMessage_already ?_ name msg t
    exact hmem

/-- Witness for C10: in `wStateScored` (B already scored) the drawer A
reselects the word `"dog"` at time 200. -/
theorem C10_witness :
    (handleWordSelect wStateScored 0 1 ['d', 'o', 'g'] 200).2 =
      [Emitted.wordSelected 0 ['d', 'o', 'g'] 1, Emitted.timerUpdate 0 60 60] ∧
    alGet (handleWordSelect wStateScored 0 1 ['d', 'o', 'g'] 200).1.roomGames 0 =
      some { wGame with currentWord := some ['d', 'o', 'g']
                        timerEndTime := some (200 + 60 * 1000) } ∧
    alGet (handleWordSelect wStateScored 0 1 ['d', 'o', 'g'] 200).1.roomTimers 0 =
      some 60 ∧
    (handleWordSelect wStateScored 0 1 ['d', 'o', 'g'] 200).1.roomCorrectGuessers =
      wStateScored.roomCorrectGuessers ∧
    (handleWordSelect wStateScored 0 1 ['d', 'o', 'g'] 200).1.roomUsers =
      wStateScored.roomUsers ∧
    (∀ uid name msg t, uid ∈ cgOf wStateScored 0 →
      handleChatMessage (handleWordSelect wStateScored 0 1 ['d', 'o', 'g'] 200).1
          0 uid name msg t =
        some ((handleWordSelect wStateScored 0 1 ['d', 'o', 'g'] 200).1,
          [Emitted.chatMessage 0 name msg false none none])) :=
  C10_word_reselect wStateScored 0 1 wGame guessCat ['d', 'o', 'g'] 200 rfl rfl rfl

end GuessGame
